import Mathlib

/-!
Verification of the sled-backed gRPC key-value server.

The request dispatcher (`find_by_key`, `delete`, `insert`, `keys`) is embedded
from `src/server.rs`.  The storage engine itself lives in the external `sled`
crate and is not part of the repository sources, so it is modelled from the
spec (§3, §4.1): a store totally ordered by byte-lexicographic key comparison,
with get/put/delete/prefix-scan and a fsync-before-acknowledge durability
barrier.  Rust `String`s are represented by their UTF-8 byte sequences (a Rust
`String` is exactly a valid-UTF-8 byte buffer), so `String::from_utf8` becomes
a validity check on the bytes.
-/

namespace KV

/-- A byte of a sled key or value.  No arithmetic is performed on bytes, so
they are plain naturals. -/
abbrev Byte := Nat

abbrev Key := List Byte

abbrev Value := List Byte

/-- Modelled from the spec: byte-lexicographic strict order on keys
(§3 "totally ordered by byte-lexicographic comparison of keys"), matching
Rust's `Ord` on byte slices: compare element-wise, a strict prefix sorts
first. -/
def lexLt : Key → Key → Bool
  | [], [] => false
  | [], _ :: _ => true
  | _ :: _, [] => false
  | a :: as, b :: bs => if a < b then true else if b < a then false else lexLt as bs

/-- Modelled from the spec: the store is the set of records, kept in ascending
byte-lexicographic key order (§3 "Store"), as an ordered association list. -/
abbrev Store := List (Key × Value)

/-- Modelled from the spec: `get(key) -> Option<value>` (§4.1) — the value if
present, nothing (not an error) if absent. -/
def storeGet : Store → Key → Option Value
  | [], _ => none
  | (k2, v2) :: rest, k => if k = k2 then some v2 else storeGet rest k

/-- Modelled from the spec: `put(key, value)` (§4.1) — stores the pair,
replacing any prior value for the key, preserving the ascending key order of
the store. -/
def storeInsert : Store → Key → Value → Store
  | [], k, v => [(k, v)]
  | (k2, v2) :: rest, k, v =>
    if lexLt k k2 then (k, v) :: (k2, v2) :: rest
    else if k = k2 then (k, v) :: rest
    else (k2, v2) :: storeInsert rest k v

/-- Modelled from the spec: `delete(key)` (§4.1) — removes the key if present,
a no-op if absent. -/
def storeRemove : Store → Key → Store
  | [], _ => []
  | (k2, v2) :: rest, k => if k = k2 then rest else (k2, v2) :: storeRemove rest k

/-- Modelled from the spec: `scan_prefix` (§4.1) — the records whose key
starts with the given byte sequence, in store (ascending key) order; the
match is a byte-sequence-starts-with test (§4.1 algorithm requirements). -/
def prefixScan (db : Store) (p : Key) : Store :=
  db.filter (fun kv => List.isPrefixOf p kv.1)

/-- The store-order invariant: every entry's key is byte-lexicographically
below every later entry's key (this is §3's ordering invariant, stated as a
computable check so that it can be evaluated on concrete stores). -/
def pairwiseLex : Store → Bool
  | [] => true
  | a :: rest => (rest.all fun b => lexLt a.1 b.1) && pairwiseLex rest

/-- A list of keys is in strictly ascending byte-lexicographic order. -/
def ascending : List Key → Bool
  | [] => true
  | a :: rest => (rest.all fun b => lexLt a b) && ascending rest

/-- The two gRPC status codes the dispatcher produces
(`Status::not_found` and `Status::internal` in `server.rs`). -/
inductive GStatus where
  | notFound : GStatus
  | internal : GStatus
deriving DecidableEq, Repr

/-- The `KeyValuePair` protobuf message. -/
structure KeyValuePair where
  key : Key
  value : Value
deriving DecidableEq, Repr

/-- Dispatcher `find_by_key` from `server.rs`, as a function of the engine's
reply to `database.get(&key)`: a found value yields the pair, a miss yields
`not_found`, an engine error yields `internal`. -/
def find_by_key (key : Key) (res : Except Unit (Option Value)) :
    Except GStatus KeyValuePair :=
  match res with
  | .ok (some value_bytes) => .ok ⟨key, value_bytes⟩
  | .ok none => .error .notFound
  | .error _ => .error .internal

/-- Dispatcher `delete` from `server.rs`, as a function of the engine's reply
to `database.remove(&key)` (sled returns the previous value, the code ignores
it with `Ok(_)`): any success echoes the request key, an engine error yields
`internal`. -/
def delete (key : Key) (res : Except Unit (Option Value)) : Except GStatus Key :=
  match res with
  | .ok _ => .ok key
  | .error _ => .error .internal

/-- Dispatcher `insert` from `server.rs`, as a function of the engine's reply
to `database.insert(&key, value)` (sled returns the previous value, the code
ignores it with `Ok(_)`): any success echoes the stored pair, an engine error
yields `internal`. -/
def insert (key : Key) (value : Value) (res : Except Unit (Option Value)) :
    Except GStatus KeyValuePair :=
  match res with
  | .ok _ => .ok ⟨key, value⟩
  | .error _ => .error .internal

/-- Whether a byte is a UTF-8 continuation byte (`0x80..=0xBF`). -/
def isCont (b : Byte) : Bool := 0x80 ≤ b && b ≤ 0xBF

/-- Validity of a byte sequence as UTF-8, the check `String::from_utf8`
performs in `keys`: ASCII is one byte, `0xC2..=0xDF` leads a two-byte
sequence, `0xE0..=0xEF` a three-byte sequence (with the `0xE0`/`0xED` ranges
excluding overlong forms and surrogates), `0xF0..=0xF4` a four-byte sequence
(with the `0xF0`/`0xF4` ranges excluding overlong forms and values past
`U+10FFFF`). -/
def validUtf8 : List Byte → Bool
  | [] => true
  | b :: rest =>
    if b ≤ 0x7F then validUtf8 rest
    else if b ≤ 0xC1 then false
    else if b ≤ 0xDF then
      match rest with
      | c1 :: r => isCont c1 && validUtf8 r
      | [] => false
    else if b ≤ 0xEF then
      match rest with
      | c1 :: c2 :: r =>
        (if b = 0xE0 then ((0xA0 ≤ c1 && c1 ≤ 0xBF : Bool))
         else if b = 0xED then ((0x80 ≤ c1 && c1 ≤ 0x9F : Bool))
         else isCont c1) && isCont c2 && validUtf8 r
      | _ => false
    else if b ≤ 0xF4 then
      match rest with
      | c1 :: c2 :: c3 :: r =>
        (if b = 0xF0 then ((0x90 ≤ c1 && c1 ≤ 0xBF : Bool))
         else if b = 0xF4 then ((0x80 ≤ c1 && c1 ≤ 0x8F : Bool))
         else isCont c1) && isCont c2 && isCont c3 && validUtf8 r
      | _ => false
    else false

/-- The scan loop of dispatcher `keys` from `server.rs`, over the sequence of
per-record results the engine iterator yields: a scan error or a key that is
not valid UTF-8 fails the whole call with `internal`; otherwise every key is
collected in scan order.  (The Rust loop pushes each key before examining the
next result; collecting the key in front of the recursive result is the same
computation, since a later failure discards the accumulator either way.) -/
def keysLoop : List (Except Unit (Key × Value)) → Except GStatus (List Key)
  | [] => .ok []
  | .ok kv :: rest =>
    if validUtf8 kv.1 then (keysLoop rest).map fun ks => kv.1 :: ks
    else .error .internal
  | .error _ :: _ => .error .internal

/-- Dispatcher `keys` from `server.rs` on a fault-free scan: the engine
iterator yields exactly the prefix-matching records in store order, each
wrapped in `Ok`. -/
def keys (db : Store) (p : Key) : Except GStatus (List Key) :=
  keysLoop ((prefixScan db p).map Except.ok)

/-- A fault-free `find_by_key` call against a store: the gRPC reply and the
(unchanged) store. -/
def runFind (db : Store) (k : Key) : Except GStatus KeyValuePair × Store :=
  (find_by_key k (.ok (storeGet db k)), db)

/-- A fault-free `insert` call against a store: the gRPC reply and the
updated store. -/
def runInsert (db : Store) (k : Key) (v : Value) :
    Except GStatus KeyValuePair × Store :=
  (insert k v (.ok (storeGet db k)), storeInsert db k v)

/-- A fault-free `delete` call against a store: the gRPC reply and the
updated store. -/
def runDelete (db : Store) (k : Key) : Except GStatus Key × Store :=
  (delete k (.ok (storeGet db k)), storeRemove db k)

/-- A fault-free `keys` call against a store: the gRPC reply and the
(unchanged) store. -/
def runKeys (db : Store) (p : Key) : Except GStatus (List Key) × Store :=
  (keys db p, db)

/-- Modelled from the spec: the engine's state as seen in memory and as
recoverable from the durable medium (§4.1 durability: "every successful
put/delete must be recoverable after an unclean process termination",
"write-ahead log or equivalent fsync-before-acknowledge discipline"). -/
structure EngineState where
  volatile : Store
  durable : Store
deriving DecidableEq, Repr

/-- Modelled from the spec: `put` reaches the durable medium before the call
acknowledges (§4.1 "Returns success only after the write is guaranteed to
survive a subsequent crash"). -/
def enginePut (s : EngineState) (k : Key) (v : Value) : EngineState :=
  ⟨storeInsert s.volatile k v, storeInsert s.durable k v⟩

/-- Modelled from the spec: `delete` reaches the durable medium before the
call acknowledges (§4.1 "Same durability and failure contract as put"). -/
def engineDelete (s : EngineState) (k : Key) : EngineState :=
  ⟨storeRemove s.volatile k, storeRemove s.durable k⟩

/-- Modelled from the spec: an unclean process termination discards all
volatile state; reopening reconstructs exactly the durable state (§4.1
"on reopen, the engine must reconstruct a consistent state reflecting all
acknowledged writes"). -/
def crashReopen (s : EngineState) : EngineState :=
  ⟨s.durable, s.durable⟩

/-- Modelled from the spec: reads are served from the in-memory view. -/
def engineGet (s : EngineState) (k : Key) : Option Value :=
  storeGet s.volatile k

/-- A sample well-ordered store holding the spec §8 keys "a/1", "a/2", "b/1"
as their UTF-8 bytes. -/
def sampleStore : Store :=
  [([97, 47, 49], [0]), ([97, 47, 50], [1]), ([98, 47, 49], [2])]

/-- A sample engine state whose volatile and durable views both hold
`sampleStore`. -/
def sampleEngine : EngineState := ⟨sampleStore, sampleStore⟩

/-- A store holding one key that is not valid UTF-8 (a lone byte `0xFF`). -/
def badStore : Store := [([255], [0])]

theorem lexLt_irrefl (k : Key) : lexLt k k = false := by
  induction k with
  | nil => rfl
  | cons a as ih => simp [lexLt, ih]

theorem ne_of_lexLt {a b : Key} (h : lexLt a b = true) : a ≠ b := by
  intro he
  subst he
  simp [lexLt_irrefl] at h

theorem storeGet_insert_self (db : Store) (k : Key) (v : Value) :
    storeGet (storeInsert db k v) k = some v := by
  induction db with
  | nil => simp [storeInsert, storeGet]
  | cons hd tl ih =>
    obtain ⟨k2, v2⟩ := hd
    simp only [storeInsert]
    split
    · simp [storeGet]
    · split
      · simp [storeGet]
      · next hne => simp [storeGet, hne, ih]

theorem storeGet_insert_ne (db : Store) (k k2 : Key) (v : Value) (h : k ≠ k2) :
    storeGet (storeInsert db k v) k2 = storeGet db k2 := by
  induction db with
  | nil => simp [storeInsert, storeGet, h.symm]
  | cons hd tl ih =>
    obtain ⟨k3, v3⟩ := hd
    simp only [storeInsert]
    split
    · simp [storeGet, h.symm]
    · split
      · next heq =>
        subst heq
        simp [storeGet, h.symm]
      · simp [storeGet, ih]

theorem storeGet_remove_ne (db : Store) (k k2 : Key) (h : k ≠ k2) :
    storeGet (storeRemove db k) k2 = storeGet db k2 := by
  induction db with
  | nil => rfl
  | cons hd tl ih =>
    obtain ⟨k3, v3⟩ := hd
    simp only [storeRemove]
    split
    · next heq =>
      subst heq
      simp [storeGet, h.symm]
    · simp [storeGet, ih]

theorem storeGet_eq_none_of_all_lt (db : Store) (k : Key)
    (h : (db.all fun b => lexLt k b.1) = true) : storeGet db k = none := by
  induction db with
  | nil => rfl
  | cons hd tl ih =>
    simp only [List.all_cons, Bool.and_eq_true] at h
    have hne : k ≠ hd.1 := ne_of_lexLt h.1
    obtain ⟨k2, v2⟩ := hd
    simp only [storeGet]
    simp only at hne
    simp [hne, ih h.2]

theorem storeGet_remove_self (db : Store) (k : Key) (h : pairwiseLex db = true) :
    storeGet (storeRemove db k) k = none := by
  induction db with
  | nil => rfl
  | cons hd tl ih =>
    simp only [pairwiseLex, Bool.and_eq_true] at h
    obtain ⟨k2, v2⟩ := hd
    simp only [storeRemove]
    split
    · next heq =>
      subst heq
      exact storeGet_eq_none_of_all_lt tl k h.1
    · next hne => simp [storeGet, hne, ih h.2]

theorem storeRemove_absent (db : Store) (k : Key) (h : storeGet db k = none) :
    storeRemove db k = db := by
  induction db with
  | nil => rfl
  | cons hd tl ih =>
    obtain ⟨k2, v2⟩ := hd
    by_cases he : k = k2
    · simp [storeGet, he] at h
    · simp only [storeGet, if_neg he] at h
      simp [storeRemove, he, ih h]

theorem filter_map_fst (db : Store) (q : Key → Bool) :
    (db.filter fun kv => q kv.1).map Prod.fst = (db.map Prod.fst).filter q := by
  induction db with
  | nil => rfl
  | cons hd tl ih =>
    by_cases hq : q hd.1
    · simp [List.filter_cons, hq, ih]
    · simp [List.filter_cons, hq, ih]

theorem all_filter_of_all {α : Type} (l : List α) (p q : α → Bool)
    (h : l.all p = true) : (l.filter q).all p = true := by
  induction l with
  | nil => rfl
  | cons hd tl ih =>
    simp only [List.all_cons, Bool.and_eq_true] at h
    by_cases hq : q hd
    · simp [List.filter_cons, hq, List.all_cons, h.1, ih h.2]
    · simp [List.filter_cons, hq, ih h.2]

theorem ascending_map_fst (db : Store) (h : pairwiseLex db = true) :
    ascending (db.map Prod.fst) = true := by
  induction db with
  | nil => rfl
  | cons hd tl ih =>
    simp only [pairwiseLex, Bool.and_eq_true] at h
    simp [ascending, List.all_map, Function.comp, Bool.and_eq_true, ih h.2]
    intro x xv hx
    simpa using List.all_eq_true.mp h.1 (x, xv) hx

theorem ascending_filter (l : List Key) (q : Key → Bool) (h : ascending l = true) :
    ascending (l.filter q) = true := by
  induction l with
  | nil => rfl
  | cons hd tl ih =>
    simp only [ascending, Bool.and_eq_true] at h
    by_cases hq : q hd
    · simp only [List.filter_cons, hq, if_true, ascending, Bool.and_eq_true]
      exact ⟨all_filter_of_all tl _ q h.1, ih h.2⟩
    · simp [List.filter_cons, hq, ih h.2]

theorem keysLoop_ok (l : Store) (h : (l.all fun kv => validUtf8 kv.1) = true) :
    keysLoop (l.map Except.ok) = .ok (l.map Prod.fst) := by
  induction l with
  | nil => rfl
  | cons hd tl ih =>
    simp only [List.all_cons, Bool.and_eq_true] at h
    simp [keysLoop, h.1, ih h.2, Except.map]

theorem keysLoop_invalid (l : Store) (kv : Key × Value) (hm : kv ∈ l)
    (hbad : validUtf8 kv.1 = false) :
    keysLoop (l.map Except.ok) = .error .internal := by
  induction l with
  | nil => cases hm
  | cons hd tl ih =>
    rcases List.mem_cons.mp hm with he | ht
    · subst he
      simp [keysLoop, hbad]
    · by_cases hv : validUtf8 hd.1
      · simp [keysLoop, hv, ih ht, Except.map]
      · simp [keysLoop, hv]

theorem keysLoop_scan_error (l1 l2 : List (Except Unit (Key × Value))) (e : Unit) :
    keysLoop (l1 ++ .error e :: l2) = .error .internal := by
  induction l1 with
  | nil => simp [keysLoop]
  | cons hd tl ih =>
    cases hd with
    | error e2 => simp [keysLoop]
    | ok kv =>
      by_cases hv : validUtf8 kv.1
      · simp [keysLoop, hv, ih, Except.map]
      · simp [keysLoop, hv]

theorem keysLoop_ne_notFound (l : List (Except Unit (Key × Value))) :
    keysLoop l ≠ .error GStatus.notFound := by
  induction l with
  | nil => simp [keysLoop]
  | cons hd tl ih =>
    cases hd with
    | error e => simp [keysLoop]
    | ok kv =>
      by_cases hv : validUtf8 kv.1
      · simp only [keysLoop, hv, if_true]
        cases hkl : keysLoop tl with
        | ok ks => simp [Except.map]
        | error e =>
          rw [hkl] at ih
          simp only [Except.map]
          intro hcontra
          exact ih hcontra
      · simp [keysLoop, hv]

theorem prefixScan_nil (db : Store) : prefixScan db [] = db := by
  induction db with
  | nil => rfl
  | cons hd tl ih => simp [prefixScan, List.isPrefixOf, List.filter_cons] at ih ⊢

/-- C1: a successful insert(k, v) survives an unclean process termination
immediately after the call returns — after a reopen, find_by_key(k) returns
v; likewise a successful delete(k2) survives the crash: after a reopen,
find_by_key(k2) reports the key absent.  (Engine durability modelled from the
spec: put/delete write through to the durable state before acknowledging.) -/
theorem insert_delete_durable_after_crash (s : EngineState) (k k2 : Key)
    (v : Value) (h : pairwiseLex s.durable = true) :
    insert k v (.ok (engineGet s k)) = .ok ⟨k, v⟩ ∧
    find_by_key k (.ok (engineGet (crashReopen (enginePut s k v)) k)) = .ok ⟨k, v⟩ ∧
    delete k2 (.ok (engineGet s k2)) = .ok k2 ∧
    find_by_key k2 (.ok (engineGet (crashReopen (engineDelete s k2)) k2)) =
      .error .notFound := by
  refine ⟨rfl, ?_, rfl, ?_⟩
  · simp [engineGet, crashReopen, enginePut, storeGet_insert_self, find_by_key]
  · simp [engineGet, crashReopen, engineDelete, storeGet_remove_self _ _ h,
      find_by_key]

theorem insert_delete_durable_after_crash_witness :
    pairwiseLex sampleEngine.durable = true ∧
    (insert [120] [121] (.ok (engineGet sampleEngine [120])) = .ok ⟨[120], [121]⟩ ∧
     find_by_key [120]
       (.ok (engineGet (crashReopen (enginePut sampleEngine [120] [121])) [120])) =
       .ok ⟨[120], [121]⟩ ∧
     delete [97, 47, 49] (.ok (engineGet sampleEngine [97, 47, 49])) = .ok [97, 47, 49] ∧
     find_by_key [97, 47, 49]
       (.ok (engineGet (crashReopen (engineDelete sampleEngine [97, 47, 49]))
         [97, 47, 49])) = .error .notFound) :=
  ⟨by decide,
   insert_delete_durable_after_crash sampleEngine [120] [97, 47, 49] [121] (by decide)⟩

/-- C2: a successful insert(k, v) followed by find_by_key(k) returns the pair
(k, v), for every starting store. -/
theorem insert_find_roundtrip (db : Store) (k : Key) (v : Value) :
    (runInsert db k v).1 = .ok ⟨k, v⟩ ∧
    (runFind (runInsert db k v).2 k).1 = .ok ⟨k, v⟩ := by
  refine ⟨rfl, ?_⟩
  simp [runFind, runInsert, storeGet_insert_self, find_by_key]

/-- C3: insert(k, v1) then insert(k, v2) then find_by_key(k) returns v2 —
an insert on an existing key replaces the prior value. -/
theorem insert_last_write_wins (db : Store) (k : Key) (v1 v2 : Value) :
    (runFind (runInsert (runInsert db k v1).2 k v2).2 k).1 = .ok ⟨k, v2⟩ := by
  simp [runFind, runInsert, storeGet_insert_self, find_by_key]

/-- C4: on an ordered store whose prefix-matching keys are valid UTF-8, the
keys call returns exactly the keys starting with the prefix (a
byte-sequence-starts-with test), in ascending byte-lexicographic order, and
returns a successful empty list when no key matches. -/
theorem keys_exact_ordered (db : Store) (p : Key)
    (hs : pairwiseLex db = true)
    (hv : ((prefixScan db p).all fun kv => validUtf8 kv.1) = true) :
    keys db p = .ok ((db.map Prod.fst).filter fun k => List.isPrefixOf p k) ∧
    ascending ((db.map Prod.fst).filter fun k => List.isPrefixOf p k) = true ∧
    (((db.map Prod.fst).all fun k => !List.isPrefixOf p k) = true →
      keys db p = .ok []) := by
  have h1 : keys db p = .ok ((db.map Prod.fst).filter fun k => List.isPrefixOf p k) := by
    rw [keys, keysLoop_ok _ hv, prefixScan, filter_map_fst]
  refine ⟨h1, ascending_filter _ _ (ascending_map_fst db hs), ?_⟩
  intro hall
  rw [h1]
  have hnil : ((db.map Prod.fst).filter fun k => List.isPrefixOf p k) = [] := by
    rw [List.filter_eq_nil_iff]
    intro a ha
    have hfalse : List.isPrefixOf p a = false := by
      simpa using List.all_eq_true.mp hall a ha
    simp [hfalse]
  rw [hnil]

theorem keys_exact_ordered_witness :
    pairwiseLex sampleStore = true ∧
    ((prefixScan sampleStore [97, 47]).all fun kv => validUtf8 kv.1) = true ∧
    (keys sampleStore [97, 47] =
       .ok ((sampleStore.map Prod.fst).filter fun k => List.isPrefixOf [97, 47] k) ∧
     ascending ((sampleStore.map Prod.fst).filter fun k =>
       List.isPrefixOf [97, 47] k) = true ∧
     (((sampleStore.map Prod.fst).all fun k => !List.isPrefixOf [97, 47] k) = true →
       keys sampleStore [97, 47] = .ok [])) :=
  ⟨by decide, by decide,
   keys_exact_ordered sampleStore [97, 47] (by decide) (by decide)⟩

/-- C5: find_by_key on an absent key fails with NotFound, and NotFound is
produced by no other operation: delete, insert and the keys scan loop never
return it, whatever the engine replies. -/
theorem notFound_only_from_find (db : Store) (k k2 : Key) (v : Value)
    (res : Except Unit (Option Value)) (l : List (Except Unit (Key × Value)))
    (h : storeGet db k = none) :
    (runFind db k).1 = .error .notFound ∧
    delete k2 res ≠ .error .notFound ∧
    insert k2 v res ≠ .error .notFound ∧
    keysLoop l ≠ .error .notFound := by
  refine ⟨by simp [runFind, h, find_by_key], ?_, ?_, keysLoop_ne_notFound l⟩
  · cases res <;> simp [delete]
  · cases res <;> simp [insert]

theorem notFound_only_from_find_witness :
    storeGet sampleStore [122] = none ∧
    ((runFind sampleStore [122]).1 = .error .notFound ∧
     delete [1] (.ok none) ≠ .error .notFound ∧
     insert [1] [2] (.ok none) ≠ .error .notFound ∧
     keysLoop [.error ()] ≠ .error .notFound) :=
  ⟨by decide,
   notFound_only_from_find sampleStore [122] [1] [2] (.ok none) [.error ()] (by decide)⟩

/-- C6: on an ordered store, delete(k) succeeds and echoes the input key
(also when k is absent), a following find_by_key(k) reports the key absent,
and deleting twice leaves the same store as deleting once. -/
theorem delete_succeeds_idempotent (db : Store) (k : Key)
    (hs : pairwiseLex db = true) :
    (runDelete db k).1 = .ok k ∧
    (runFind (runDelete db k).2 k).1 = .error .notFound ∧
    (runDelete (runDelete db k).2 k).2 = (runDelete db k).2 := by
  have habs : storeGet (storeRemove db k) k = none := storeGet_remove_self db k hs
  refine ⟨rfl, ?_, ?_⟩
  · simp [runFind, runDelete, habs, find_by_key]
  · simp [runDelete, storeRemove_absent _ _ habs]

theorem delete_succeeds_idempotent_witness :
    pairwiseLex sampleStore = true ∧
    ((runDelete sampleStore [97, 47, 49]).1 = .ok [97, 47, 49] ∧
     (runFind (runDelete sampleStore [97, 47, 49]).2 [97, 47, 49]).1 =
       .error .notFound ∧
     (runDelete (runDelete sampleStore [97, 47, 49]).2 [97, 47, 49]).2 =
       (runDelete sampleStore [97, 47, 49]).2) :=
  ⟨by decide, delete_succeeds_idempotent sampleStore [97, 47, 49] (by decide)⟩

/-- C7: if any record matched by the scan has a key that is not valid UTF-8,
the keys call fails as a whole with Internal. -/
theorem keys_invalid_key_internal (db : Store) (p : Key) (kv : Key × Value)
    (hm : kv ∈ prefixScan db p) (hbad : validUtf8 kv.1 = false) :
    keys db p = .error .internal := by
  rw [keys]
  exact keysLoop_invalid _ kv hm hbad

theorem keys_invalid_key_internal_witness :
    (([255], [0]) : Key × Value) ∈ prefixScan badStore [] ∧
    validUtf8 [255] = false ∧
    keys badStore [] = .error .internal :=
  ⟨by decide, by decide,
   keys_invalid_key_internal badStore [] ([255], [0]) (by decide) (by decide)⟩

/-- C8: whenever the storage engine reports a failure, each dispatcher
operation returns Internal to the caller — find_by_key, delete and insert on
an engine error, and the keys loop as soon as the scan yields an error,
wherever it occurs; each returns a status instead of aborting. -/
theorem engine_failure_internal (k : Key) (v : Value) (e : Unit)
    (l1 l2 : List (Except Unit (Key × Value))) :
    find_by_key k (.error e) = .error .internal ∧
    delete k (.error e) = .error .internal ∧
    insert k v (.error e) = .error .internal ∧
    keysLoop (l1 ++ .error e :: l2) = .error .internal :=
  ⟨rfl, rfl, rfl, keysLoop_scan_error l1 l2 e⟩

/-- C9: on an ordered store whose keys are all valid UTF-8, the keys call
with the empty prefix succeeds and returns every key of the store, in
ascending byte-lexicographic order. -/
theorem keys_empty_prefix_all (db : Store) (hs : pairwiseLex db = true)
    (hv : (db.all fun kv => validUtf8 kv.1) = true) :
    keys db [] = .ok (db.map Prod.fst) ∧ ascending (db.map Prod.fst) = true := by
  constructor
  · rw [keys, prefixScan_nil, keysLoop_ok _ hv]
  · exact ascending_map_fst db hs

theorem keys_empty_prefix_all_witness :
    pairwiseLex sampleStore = true ∧
    (sampleStore.all fun kv => validUtf8 kv.1) = true ∧
    (keys sampleStore [] = .ok (sampleStore.map Prod.fst) ∧
     ascending (sampleStore.map Prod.fst) = true) :=
  ⟨by decide, by decide, keys_empty_prefix_all sampleStore (by decide) (by decide)⟩

/-- C10: insert(k, v) and delete(k) leave the value of every other key k2
unchanged, and find_by_key and keys leave the whole store unchanged. -/
theorem mutation_frame (db : Store) (k k2 : Key) (v : Value) (p : Key)
    (h : k ≠ k2) :
    storeGet (runInsert db k v).2 k2 = storeGet db k2 ∧
    storeGet (runDelete db k).2 k2 = storeGet db k2 ∧
    (runFind db k).2 = db ∧
    (runKeys db p).2 = db :=
  ⟨storeGet_insert_ne db k k2 v h, storeGet_remove_ne db k k2 h, rfl, rfl⟩

theorem mutation_frame_witness :
    ([97, 47, 49] : Key) ≠ [98, 47, 49] ∧
    (storeGet (runInsert sampleStore [97, 47, 49] [7]).2 [98, 47, 49] =
       storeGet sampleStore [98, 47, 49] ∧
     storeGet (runDelete sampleStore [97, 47, 49]).2 [98, 47, 49] =
       storeGet sampleStore [98, 47, 49] ∧
     (runFind sampleStore [97, 47, 49]).2 = sampleStore ∧
     (runKeys sampleStore [97, 47]).2 = sampleStore) :=
  ⟨by decide,
   mutation_frame sampleStore [97, 47, 49] [98, 47, 49] [7] [97, 47] (by decide)⟩

end KV
